import Mathlib

/-!
Shallow embedding of the snek Session Snapshot & Watch Subsystem
(src/snapshot.rs, src/session_io.rs, src/watcher.rs, src/model.rs,
src/document_store.rs) together with theorems settling the spec claims.

Filesystem paths are modelled as lists of components; `PathBuf::join`
appends one component.  Rust `HashMap<String, String>` values are
modelled as association lists with unique keys built by an in-place
`insert`.  The filesystem and the external libraries (serde parsing,
`url::Url::parse` + `to_file_path`) are parameters of the embedding
(`FS`, `Env`): the code under verification calls them abstractly.
-/

set_option autoImplicit false

namespace Snek

/-- A filesystem path, as its list of components (`PathBuf`). -/
abbrev FilePath' := List String

/-- Rust `PathBuf::join` with a single extra component. -/
def pathJoin (p : FilePath') (s : String) : FilePath' := p ++ [s]

/-- Rust `Path::file_name().and_then(|n| n.to_str())`: the last component. -/
def pathFileName (p : FilePath') : Option String := p.getLast?

/-- Rust `HashMap<String, String>` as an association list. -/
abbrev SMap := List (String × String)

/-- Rust `HashMap::get`: value of the first binding of `k`. -/
def smapFind? : SMap → String → Option String
  | [], _ => none
  | (k', v') :: t, k => if k' = k then some v' else smapFind? t k

/-- Rust `HashMap::contains_key`. -/
def smapContains (m : SMap) (k : String) : Bool := (smapFind? m k).isSome

/-- Rust `HashMap::insert`: replace the binding of `k` in place, or append it. -/
def smapInsert : SMap → String → String → SMap
  | [], k, v => [(k, v)]
  | (k', v') :: t, k, v => if k' = k then (k, v) :: t else (k', v') :: smapInsert t k v

/-- Rust `HashMap::remove`. -/
def smapErase (m : SMap) (k : String) : SMap := m.filter (fun e => e.1 ≠ k)

/-- The keys of a map, in order. -/
def smapKeys (m : SMap) : List String := m.map Prod.fst

theorem smapFind?_insert_self (m : SMap) (k v : String) :
    smapFind? (smapInsert m k v) k = some v := by
  induction m with
  | nil => simp [smapInsert, smapFind?]
  | cons e t ih =>
    rcases e with ⟨a, b⟩
    by_cases h : a = k <;> simp [smapInsert, smapFind?, h, ih]

theorem smapFind?_insert_ne (m : SMap) (k v k' : String) (h : k' ≠ k) :
    smapFind? (smapInsert m k v) k' = smapFind? m k' := by
  induction m with
  | nil => simp [smapInsert, smapFind?, Ne.symm h]
  | cons e t ih =>
    rcases e with ⟨a, b⟩
    by_cases he : a = k
    · subst he
      simp [smapInsert, smapFind?, Ne.symm h]
    · by_cases he' : a = k' <;> simp [smapInsert, smapFind?, he, he', ih, h]

theorem smapFind?_erase_self (m : SMap) (k : String) :
    smapFind? (smapErase m k) k = none := by
  induction m with
  | nil => simp [smapErase, smapFind?]
  | cons e t ih =>
    rcases e with ⟨a, b⟩
    by_cases he : a = k
    · simpa [smapErase, List.filter_cons, he] using ih
    · simpa [smapErase, List.filter_cons, he, smapFind?] using ih

theorem smapFind?_erase_ne (m : SMap) (k k' : String) (h : k' ≠ k) :
    smapFind? (smapErase m k) k' = smapFind? m k' := by
  induction m with
  | nil => simp [smapErase, smapFind?]
  | cons e t ih =>
    rcases e with ⟨a, b⟩
    by_cases he : a = k
    · subst he
      simp only [smapErase, List.filter_cons] at ih ⊢
      simpa [smapFind?, Ne.symm h] using ih
    · by_cases he' : a = k'
      · simp [smapErase, List.filter_cons, he, he', smapFind?, h]
      · simpa [smapErase, List.filter_cons, he, he', smapFind?, h] using ih

theorem smapInsert_of_find?_eq (m : SMap) (k v : String)
    (h : smapFind? m k = some v) : smapInsert m k v = m := by
  induction m with
  | nil => simp [smapFind?] at h
  | cons e t ih =>
    rcases e with ⟨a, b⟩
    by_cases he : a = k
    · subst he
      simp [smapFind?] at h
      simp [smapInsert, h]
    · simp [smapFind?, he] at h
      simp [smapInsert, he, ih h]

theorem smapKeys_insert_of_find?_eq_none (m : SMap) (k v : String)
    (h : smapFind? m k = none) :
    smapKeys (smapInsert m k v) = smapKeys m ++ [k] := by
  induction m with
  | nil => simp [smapInsert, smapKeys]
  | cons e t ih =>
    rcases e with ⟨a, b⟩
    by_cases he : a = k
    · simp [smapFind?, he] at h
    · simp [smapFind?, he] at h
      have := ih h
      simp only [smapKeys] at this
      simp [smapInsert, smapKeys, he, this]

theorem smapFind?_eq_none_of_not_mem_keys (m : SMap) (k : String)
    (h : k ∉ smapKeys m) : smapFind? m k = none := by
  induction m with
  | nil => rfl
  | cons e t ih =>
    rcases e with ⟨a, b⟩
    simp only [smapKeys, List.map_cons, List.mem_cons] at h
    push_neg at h
    simp only [smapFind?]
    rw [if_neg (Ne.symm h.1)]
    exact ih h.2

theorem smapFind?_isSome_of_mem_keys (m : SMap) (k : String)
    (h : k ∈ smapKeys m) : (smapFind? m k).isSome := by
  induction m with
  | nil => simp [smapKeys] at h
  | cons e t ih =>
    rcases e with ⟨a, b⟩
    by_cases he : a = k
    · simp [smapFind?, he]
    · simp only [smapKeys, List.map_cons, List.mem_cons] at h
      rcases h with h | h
      · exact absurd h.symm he
      · simp only [smapFind?]
        rw [if_neg he]
        exact ih h

/-! ### Data model (src/snapshot.rs) -/

/-- Token limits for model completion (`Limits`). -/
structure Limits where
  max_tokens : Nat
deriving DecidableEq

/-- A code snippet from another file for context (`CodeContext`). -/
structure CodeContext where
  uri : String
  start_line : Nat
  end_line : Nat
  language_id : String
  description : Option String
deriving DecidableEq

/-- In-memory snapshot of the active session (`ContextSnapshot`). -/
structure ContextSnapshot where
  session_id : String
  version : Nat
  limits : Limits
  session_dir : FilePath'
  code_snippets : List CodeContext
  markdown_cache : SMap
  file_cache : SMap
deriving DecidableEq

/-! ### External world: filesystem and library calls -/

/-- The filesystem as seen by the program.  `readFile` is
`std::fs::read_to_string` (`none` = any I/O error), `pathExists` is
`Path::exists`, `readDir` the entry names of `std::fs::read_dir`
(entries whose read errored are already dropped, as `entries.flatten()`
does), `canWatch` whether `notify::Watcher::watch` succeeds on a path. -/
structure FS where
  readFile : FilePath' → Option String
  pathExists : FilePath' → Bool
  isDir : FilePath' → Bool
  isFile : FilePath' → Bool
  readDir : FilePath' → Option (List String)
  canWatch : FilePath' → Bool

/-- Contents of `session.json` (`SessionJson`). -/
structure SessionJson where
  schema : Nat
  id : String
  name : String
  version : Nat
  limits : Limits
  updated_at : String

/-- Contents of `active.json` (`ActiveJson`); `path` is the relative
session path, already split into components. -/
structure ActiveJson where
  schema : Nat
  id : String
  path : List String

/-- Contents of `code_snippets.json` (`CodeSnippetsJson`). -/
structure CodeSnippetsJson where
  schema : Nat
  snippets : List CodeContext

/-- External library calls: serde JSON parsing (`none` = parse error)
and `url::Url::parse(uri).and_then(|u| u.to_file_path())` collapsed
into one partial map from URI strings to local paths. -/
structure Env where
  parseSession : String → Option SessionJson
  parseSnippets : String → Option CodeSnippetsJson
  parseActive : String → Option ActiveJson
  uriToPath : String → Option FilePath'

/-! ### Session loader (src/session_io.rs) -/

/-- Rust `Path::extension` restricted to a file name: the part after the
last dot, except that a lone leading dot (hidden file) yields no
extension. -/
def fileExt (name : String) : Option String :=
  match name.splitOn "." with
  | [] => none
  | [_] => none
  | ["", _] => none
  | parts => parts.getLast?

/-- The function `resolve_active_session`: read and parse `<root>/active.json`,
returning the joined session directory. -/
def resolve_active_session (env : Env) (fs : FS) (snekRoot : FilePath') :
    Except String FilePath' :=
  match fs.readFile (pathJoin snekRoot "active.json") with
  | none => .error "Failed to read active.json"
  | some content =>
    match env.parseActive content with
    | none => .error "Failed to parse active.json"
    | some active => .ok (snekRoot ++ active.path)

/-- The markdown-cache part of `load_snapshot`: enumerate the `context`
directory and read each regular `*.md` file, keyed by file name;
unreadable files are skipped. -/
def loadMarkdownCache (fs : FS) (contextDir : FilePath') : SMap :=
  if fs.pathExists contextDir ∧ fs.isDir contextDir then
    match fs.readDir contextDir with
    | none => []
    | some entries =>
      entries.foldl (fun cache name =>
        let p := pathJoin contextDir name
        if fs.isFile p ∧ fileExt name = some "md" then
          match fs.readFile p with
          | some content => smapInsert cache name content
          | none => cache
        else cache) []
  else []

/-- One step of the file-cache loop in `load_snapshot`: skip a URI
already cached, otherwise parse it, resolve it to a local path and read
it, silently omitting it on any failure.  The second component logs
every URI for which `read_to_string` was invoked. -/
def fileCacheStep (env : Env) (fs : FS) (acc : SMap × List String)
    (snippet : CodeContext) : SMap × List String :=
  if smapContains acc.1 snippet.uri then acc
  else
    match env.uriToPath snippet.uri with
    | none => acc
    | some p =>
      match fs.readFile p with
      | some content => (smapInsert acc.1 snippet.uri content, acc.2 ++ [snippet.uri])
      | none => (acc.1, acc.2 ++ [snippet.uri])

/-- The file-cache loop of `load_snapshot`, instrumented with the list
of URIs read from disk. -/
def buildFileCacheAux (env : Env) (fs : FS) (snips : List CodeContext) :
    SMap × List String :=
  snips.foldl (fileCacheStep env fs) ([], [])

/-- The `file_cache` built by `load_snapshot`. -/
def buildFileCache (env : Env) (fs : FS) (snips : List CodeContext) : SMap :=
  (buildFileCacheAux env fs snips).1

/-- The function `load_snapshot(session_dir)`: read and parse `session.json`
(failure is fatal), read and parse `code_snippets.json` when it exists
(a missing file yields an empty snippet list, a present but unreadable
or unparsable one is fatal), then build the markdown and file caches. -/
def load_snapshot (env : Env) (fs : FS) (sessionDir : FilePath') :
    Except String ContextSnapshot :=
  match fs.readFile (pathJoin sessionDir "session.json") with
  | none => .error "Failed to read session.json"
  | some sessionContent =>
    match env.parseSession sessionContent with
    | none => .error "Failed to parse session.json"
    | some session =>
      let snippetsPath := pathJoin sessionDir "code_snippets.json"
      let snippetsRes : Except String (List CodeContext) :=
        if fs.pathExists snippetsPath then
          match fs.readFile snippetsPath with
          | none => .error "Failed to read code_snippets.json"
          | some snippetsContent =>
            match env.parseSnippets snippetsContent with
            | none => .error "Failed to parse code_snippets.json"
            | some parsed => .ok parsed.snippets
        else .ok []
      match snippetsRes with
      | .error e => .error e
      | .ok code_snippets =>
        .ok {
          session_id := session.id
          version := session.version
          limits := session.limits
          session_dir := sessionDir
          code_snippets := code_snippets
          markdown_cache := loadMarkdownCache fs (pathJoin sessionDir "context")
          file_cache := buildFileCache env fs code_snippets
        }

/-! ### Watcher (src/watcher.rs)

The watch loop owns three pieces of mutable state threaded through the
flush branch: the active `session_dir`, the published snapshot (the
`ArcSwap<ContextSnapshot>` store — always holding one whole snapshot),
and the `watched_files` set.  The four pending buckets of the debounce
window form `Pending`.  Rust `HashSet` iteration order is unspecified;
the sets are modelled as lists in some iteration order. -/

structure WatchState where
  sessionDir : FilePath'
  snapshot : ContextSnapshot
  watchedFiles : List FilePath'
deriving DecidableEq

structure Pending where
  sessionSwitch : Bool
  snippetsReload : Bool
  markdownUpdates : List FilePath'
  codeUpdates : List FilePath'
deriving DecidableEq

def emptyPending : Pending :=
  { sessionSwitch := false, snippetsReload := false
    markdownUpdates := [], codeUpdates := [] }

/-- The `watched_files` set rebuilt by `switch_session` (and by
`SessionWatcher::start`): resolvable snippet URIs whose path exists and
was watched successfully. -/
def snippetWatchSet (env : Env) (fs : FS) (snips : List CodeContext) :
    List FilePath' :=
  ((snips.filterMap (fun s => env.uriToPath s.uri)).filter
    (fun p => fs.pathExists p && fs.canWatch p)).dedup

/-- One step of the `update_markdown_cache` loop: re-read an existing
file into `markdown_cache[filename]` (keeping the old entry when the
read fails), remove the key when the file no longer exists. -/
def markdownStep (fs : FS) (cache : SMap) (path : FilePath') : SMap :=
  match pathFileName path with
  | none => cache
  | some filename =>
    if fs.pathExists path then
      match fs.readFile path with
      | some content => smapInsert cache filename content
      | none => cache
    else smapErase cache filename

/-- The function `update_markdown_cache`: clone the current snapshot, fold the
changed paths over the markdown cache, store the result. -/
def update_markdown_cache (fs : FS) (_sessionDir : FilePath')
    (snapshot : ContextSnapshot) (changedPaths : List FilePath') :
    ContextSnapshot :=
  { snapshot with
    markdown_cache := changedPaths.foldl (markdownStep fs) snapshot.markdown_cache }

/-- The inner loop of `update_code_cache` with its `break`: the first
snippet (in list order) whose URI resolves to the changed path. -/
def firstSnippetFor (env : Env) (snips : List CodeContext)
    (path : FilePath') : Option CodeContext :=
  snips.find? (fun s => env.uriToPath s.uri = some path)

/-- One step of the `update_code_cache` loop over the changed paths:
act on the key of the first matching snippet only. -/
def codeStep (env : Env) (fs : FS) (snips : List CodeContext)
    (cache : SMap) (path : FilePath') : SMap :=
  match firstSnippetFor env snips path with
  | none => cache
  | some snippet =>
    if fs.pathExists path then
      match fs.readFile path with
      | some content => smapInsert cache snippet.uri content
      | none => cache
    else smapErase cache snippet.uri

/-- The function `update_code_cache`: clone the current snapshot, fold the changed
paths over the file cache (matching against the current snapshot's
snippet list), store the result. -/
def update_code_cache (env : Env) (fs : FS) (snapshot : ContextSnapshot)
    (changedPaths : List FilePath') : ContextSnapshot :=
  { snapshot with
    file_cache :=
      changedPaths.foldl (codeStep env fs snapshot.code_snippets) snapshot.file_cache }

/-- The function `switch_session`.  Mutations already performed before a failure
persist (the `&mut` state is returned together with the error):
`watched_files` is cleared before the new session is loaded, while
`session_dir` and the snapshot store are only written at the very end.
`some e` in the second component is the `Err` return. -/
def switch_session (env : Env) (fs : FS) (snekRoot : FilePath')
    (st : WatchState) : WatchState × Option String :=
  match resolve_active_session env fs snekRoot with
  | .error e => (st, some e)
  | .ok newSessionDir =>
    if newSessionDir = st.sessionDir then (st, none)
    else
      let st1 : WatchState := { st with watchedFiles := [] }
      match load_snapshot env fs newSessionDir with
      | .error e => (st1, some e)
      | .ok newSnapshot =>
        let newSnippetsPath := pathJoin newSessionDir "code_snippets.json"
        if fs.pathExists newSnippetsPath && !fs.canWatch newSnippetsPath then
          (st1, some "watch code_snippets.json failed")
        else
          let newContextDir := pathJoin newSessionDir "context"
          if fs.pathExists newContextDir && !fs.canWatch newContextDir then
            (st1, some "watch context dir failed")
          else
            ({ sessionDir := newSessionDir
               snapshot := newSnapshot
               watchedFiles := snippetWatchSet env fs newSnapshot.code_snippets },
             none)

/-- The function `reload_code_snippets`: reload the snapshot from the current
session directory; on success replace `watched_files` with all
resolvable snippet paths (watch registration failures are non-fatal)
and store the new snapshot.  The only failure is `load_snapshot`,
before any mutation. -/
def reload_code_snippets (env : Env) (fs : FS) (st : WatchState) :
    WatchState × Option String :=
  match load_snapshot env fs st.sessionDir with
  | .error e => (st, some e)
  | .ok newSnapshot =>
    let newFiles :=
      (newSnapshot.code_snippets.filterMap (fun s => env.uriToPath s.uri)).dedup
    ({ st with watchedFiles := newFiles, snapshot := newSnapshot }, none)

/-- The debounce-timeout (flush) branch of `watch_loop`.  A pending
session switch short-circuits the cycle: on success every other bucket
is cleared unapplied; on failure the other buckets are left pending.
Otherwise a pending snippet reload runs first and clears the pending
source updates (even if the reload failed), then pending markdown
updates are applied, then pending source updates. -/
def flush (env : Env) (fs : FS) (snekRoot : FilePath') (st : WatchState)
    (p : Pending) : WatchState × Pending :=
  if p.sessionSwitch then
    match switch_session env fs snekRoot st with
    | (st', none) => (st', emptyPending)
    | (st', some _) => (st', { p with sessionSwitch := false })
  else
    let st1 := if p.snippetsReload then (reload_code_snippets env fs st).1 else st
    let p1 : Pending :=
      if p.snippetsReload then { p with snippetsReload := false, codeUpdates := [] }
      else p
    let st2 :=
      if p1.markdownUpdates ≠ [] then
        { st1 with
          snapshot := update_markdown_cache fs st1.sessionDir st1.snapshot
            p1.markdownUpdates }
      else st1
    let p2 : Pending :=
      if p1.markdownUpdates ≠ [] then { p1 with markdownUpdates := [] } else p1
    let st3 :=
      if p2.codeUpdates ≠ [] then
        { st2 with
          snapshot := update_code_cache env fs st2.snapshot p2.codeUpdates }
      else st2
    let p3 : Pending :=
      if p2.codeUpdates ≠ [] then { p2 with codeUpdates := [] } else p2
    (st3, p3)

/-! ### Rust primitives shared by model.rs and document_store.rs -/

/-- Outcome of running a fallible Rust expression: it either panics or
returns a value. -/
inductive RustResult (α : Type) where
  | panicked : RustResult α
  | ok : α → RustResult α
deriving DecidableEq

/-- Split a character list at `\n`, keeping every segment (a trailing
newline yields a trailing empty segment). -/
def splitNl : List Char → List (List Char)
  | [] => [[]]
  | c :: cs =>
    if c = '\n' then [] :: splitNl cs
    else
      match splitNl cs with
      | [] => [[c]]
      | l :: ls => (c :: l) :: ls

/-- Strip one trailing `\r` (the first half of a `\r\n` line ending). -/
def stripCr (l : List Char) : List Char :=
  if l.getLast? = some '\r' then l.dropLast else l

/-- Rust `str::lines()`: split at `\n`, dropping a `\r` that directly
precedes a `\n`; a final line ending produces no empty trailing line. -/
def rustLines (s : String) : List String :=
  let segs := splitNl s.data
  let body := segs.dropLast.map (fun l => String.mk (stripCr l))
  match segs.getLast? with
  | none => body
  | some [] => body
  | some last => body ++ [String.mk last]

/-- Rust slice indexing `l[s..e]`: `none` models the out-of-bounds
panic. -/
def rustSlice {α : Type} (l : List α) (s e : Nat) : Option (List α) :=
  if s ≤ e ∧ e ≤ l.length then some ((l.drop s).take (e - s)) else none

/-- UTF-8 byte length of a character sequence (Rust `str::len`). -/
def utf8Len (cs : List Char) : Nat := (cs.map Char.utf8Size).sum

/-- Split a character sequence at a byte offset.  `none` models the
panic of Rust `&text[..offset]` when `offset` is past the end or not a
character boundary. -/
def byteSplitAux : List Char → Nat → Option (List Char × List Char)
  | cs, 0 => some ([], cs)
  | [], _ + 1 => none
  | c :: cs, n + 1 =>
    if c.utf8Size ≤ n + 1 then
      (byteSplitAux cs (n + 1 - c.utf8Size)).map (fun q => (c :: q.1, q.2))
    else none

/-! ### Snippet extraction at prompt-build time (src/model.rs,
`build_messages`, the per-snippet code block) -/

/-- The code block built for one snippet in `build_messages`: look the
snippet's URI up in `file_cache`, split the cached full content into
lines, clamp `end_line` to the line count, and slice
`lines[start_line..end]` when `start_line` is in range, falling back to
a placeholder otherwise. -/
def extractSnippetCode (snapshot : ContextSnapshot) (snippet : CodeContext) :
    RustResult String :=
  match smapFind? snapshot.file_cache snippet.uri with
  | none => .ok ("  Code: [File not in cache]\n\n")
  | some fullContent =>
    let lines := rustLines fullContent
    let lineStart := snippet.start_line
    let lineEnd := min snippet.end_line lines.length
    if lineStart < lines.length then
      match rustSlice lines lineStart lineEnd with
      | none => .panicked
      | some extractedLines =>
        .ok ("  Code:\n```\n" ++ String.intercalate "\n" extractedLines ++ "\n```\n\n")
    else .ok ("  Code: [Invalid line range]\n\n")

/-! ### Document store (src/document_store.rs) -/

/-- Internal representation of a document (`DocumentContent`). -/
structure DocumentContent where
  uri : String
  language_id : String
  text : String
deriving DecidableEq

/-- The offset loop of `DocumentStore::get_context`: full byte length
plus one (for the newline) of every line before `line`, then the
clamped `character` within line `line`; when `line` is past the last
line, the sum over all lines. -/
def computeOffset (lines : List String) (line character : Nat) : Nat :=
  match lines, line with
  | [], _ => 0
  | l :: _, 0 => min character (utf8Len l.data)
  | l :: ls, n + 1 => utf8Len l.data + 1 + computeOffset ls n character

/-- The method `DocumentStore::get_context` on the stored active document:
`none` when no document is open or the URI differs; otherwise the text
is split at the computed byte offset (clamped to the text length) into
prefix and suffix.  `RustResult.panicked` models the byte-slicing panic
on a non-boundary offset. -/
def get_context (activeDoc : Option DocumentContent) (uri : String)
    (line character : Nat) : RustResult (Option (String × String × String)) :=
  match activeDoc with
  | none => .ok none
  | some content =>
    if content.uri ≠ uri then .ok none
    else
      let lines := rustLines content.text
      let rawOffset := computeOffset lines line character
      let offset := min rawOffset (utf8Len content.text.data)
      match byteSplitAux content.text.data offset with
      | none => .panicked
      | some q => .ok (some (String.mk q.1, String.mk q.2, content.language_id))

/-! ### Inversion and invariants of the session loader -/

theorem load_snapshot_ok_fields (env : Env) (fs : FS) (sessionDir : FilePath')
    (snap : ContextSnapshot) (h : load_snapshot env fs sessionDir = .ok snap) :
    snap.session_dir = sessionDir ∧
    snap.markdown_cache = loadMarkdownCache fs (pathJoin sessionDir "context") ∧
    snap.file_cache = buildFileCache env fs snap.code_snippets := by
  unfold load_snapshot at h
  repeat' first
    | split at h
    | simp only [] at h
  all_goals
    first
    | exact Except.noConfusion h
    | (injection h with h; subst h; exact ⟨rfl, rfl, rfl⟩)

/-- Every value in the file cache built by `load_snapshot` is the whole
content read from the resolved path of its key. -/
theorem buildFileCacheAux_values (env : Env) (fs : FS)
    (snips : List CodeContext) (acc : SMap × List String)
    (hacc : ∀ u c, smapFind? acc.1 u = some c →
      ∃ p, env.uriToPath u = some p ∧ fs.readFile p = some c) :
    ∀ u c, smapFind? (snips.foldl (fileCacheStep env fs) acc).1 u = some c →
      ∃ p, env.uriToPath u = some p ∧ fs.readFile p = some c := by
  induction snips generalizing acc with
  | nil => exact hacc
  | cons s t ih =>
    refine ih (fileCacheStep env fs acc s) ?_
    intro u c h
    unfold fileCacheStep at h
    split at h
    · exact hacc u c h
    · split at h
      · exact hacc u c h
      · rename_i hc p hu
        split at h
        · rename_i content hf
          by_cases heq : u = s.uri
          · subst heq
            rw [smapFind?_insert_self] at h
            cases h
            exact ⟨p, hu, hf⟩
          · rw [smapFind?_insert_ne _ _ _ _ heq] at h
            exact hacc u c h
        · exact hacc u c h

theorem mem_keys_smapInsert (m : SMap) (u v k : String)
    (h : k ∈ smapKeys (smapInsert m u v)) : k ∈ smapKeys m ∨ k = u := by
  induction m with
  | nil =>
    simp only [smapInsert, smapKeys, List.map_cons, List.map_nil,
      List.mem_singleton] at h
    exact Or.inr h
  | cons e t ih =>
    rcases e with ⟨a, b⟩
    simp only [smapInsert] at h
    split at h
    · rename_i he
      simp only [smapKeys, List.map_cons, List.mem_cons] at h
      simp only [smapKeys, List.map_cons, List.mem_cons, he]
      tauto
    · simp only [smapKeys, List.map_cons, List.mem_cons] at h
      simp only [smapKeys, List.map_cons, List.mem_cons]
      rcases h with h | h
      · tauto
      · rcases ih h with h' | h' <;> tauto

/-- The file-cache fold never creates a duplicate key: a URI is
inserted only when it is not yet cached. -/
theorem buildFileCacheAux_keys_nodup (env : Env) (fs : FS)
    (snips : List CodeContext) (acc : SMap × List String)
    (hacc : (smapKeys acc.1).Nodup) :
    (smapKeys (snips.foldl (fileCacheStep env fs) acc).1).Nodup := by
  induction snips generalizing acc with
  | nil => exact hacc
  | cons s t ih =>
    refine ih (fileCacheStep env fs acc s) ?_
    unfold fileCacheStep
    split
    · exact hacc
    · rename_i hc
      split
      · exact hacc
      · rename_i p hu
        split
        · rename_i content hf
          have hnone : smapFind? acc.1 s.uri = none :=
            Option.not_isSome_iff_eq_none.mp (by simpa [smapContains] using hc)
          have hnotmem : s.uri ∉ smapKeys acc.1 := by
            intro hmem
            have := smapFind?_isSome_of_mem_keys acc.1 s.uri hmem
            rw [hnone] at this
            exact Bool.noConfusion this
          rw [smapKeys_insert_of_find?_eq_none acc.1 s.uri content hnone]
          simp [List.nodup_append, hacc, hnotmem]
        · exact hacc

/-- Every key of the built file cache is the URI of some snippet. -/
theorem buildFileCacheAux_keys_from_snippets (env : Env) (fs : FS)
    (snips : List CodeContext) (acc : SMap × List String) :
    ∀ k ∈ smapKeys (snips.foldl (fileCacheStep env fs) acc).1,
      k ∈ smapKeys acc.1 ∨ ∃ s ∈ snips, s.uri = k := by
  induction snips generalizing acc with
  | nil => exact fun k hk => Or.inl hk
  | cons s t ih =>
    intro k hk
    rcases ih (fileCacheStep env fs acc s) k hk with h | h
    · unfold fileCacheStep at h
      split at h
      · exact Or.inl h
      · split at h
        · exact Or.inl h
        · split at h
          · rcases mem_keys_smapInsert acc.1 s.uri _ k h with h' | h'
            · exact Or.inl h'
            · exact Or.inr ⟨s, List.mem_cons_self s t, h'.symm⟩
          · exact Or.inl h
    · rcases h with ⟨s', hs', he⟩
      exact Or.inr ⟨s', List.mem_cons_of_mem s hs', he⟩

/-- A URI whose file is resolvable and readable is read at most once by
the file-cache loop: the first successful read caches it and the
`contains_key` guard blocks any further read. -/
theorem buildFileCacheAux_read_once_aux (env : Env) (fs : FS)
    (u : String) (p : FilePath') (c : String)
    (hu : env.uriToPath u = some p) (hr : fs.readFile p = some c)
    (snips : List CodeContext) (acc : SMap × List String)
    (h1 : acc.2.count u ≤ 1)
    (h2 : 1 ≤ acc.2.count u → smapContains acc.1 u = true) :
    (snips.foldl (fileCacheStep env fs) acc).2.count u ≤ 1 ∧
      (1 ≤ (snips.foldl (fileCacheStep env fs) acc).2.count u →
        smapContains (snips.foldl (fileCacheStep env fs) acc).1 u = true) := by
  induction snips generalizing acc with
  | nil => exact ⟨h1, h2⟩
  | cons s t ih =>
    have hstep : (fileCacheStep env fs acc s).2.count u ≤ 1 ∧
        (1 ≤ (fileCacheStep env fs acc s).2.count u →
          smapContains (fileCacheStep env fs acc s).1 u = true) := by
      unfold fileCacheStep
      split
      · exact ⟨h1, h2⟩
      · rename_i hc
        split
        · exact ⟨h1, h2⟩
        · rename_i p' hu'
          split
          · rename_i content hf'
            by_cases heq : s.uri = u
            · subst heq
              have hcount : acc.2.count s.uri = 0 := by
                by_contra hne
                exact hc (h2 (Nat.one_le_iff_ne_zero.mpr hne))
              constructor
              · simp [List.count_append, hcount]
              · intro _
                simp [smapContains, smapFind?_insert_self]
            · have hne : ¬(u = s.uri) := fun he => heq he.symm
              constructor
              · simpa [List.count_append, List.count_singleton', heq] using h1
              · intro hcnt
                simp only [List.count_append, List.count_singleton',
                  if_neg heq, Nat.add_zero] at hcnt
                have := h2 hcnt
                simp only [smapContains] at this ⊢
                rw [smapFind?_insert_ne acc.1 s.uri content u hne]
                exact this
          · rename_i hf'
            by_cases heq : s.uri = u
            · subst heq
              rw [hu'] at hu
              injection hu with hu
              subst hu
              rw [hr] at hf'
              exact Option.noConfusion hf'
            · constructor
              · simpa [List.count_append, List.count_singleton', heq] using h1
              · intro hcnt
                simp only [List.count_append, List.count_singleton',
                  if_neg heq, Nat.add_zero] at hcnt
                exact h2 hcnt
    exact ih (fileCacheStep env fs acc s) hstep.1 hstep.2

/-! ### Concrete environments for witnesses and counterexamples -/

/-- Association-list lookup of a path in a finite file table. -/
def lookupPath (files : List (FilePath' × String)) (p : FilePath') :
    Option String :=
  (files.find? (fun e => decide (e.1 = p))).map Prod.snd

/-- A finite filesystem: a file table plus a directory list; every
watch registration succeeds. -/
def mkFS (files : List (FilePath' × String)) (dirs : List FilePath') : FS where
  readFile := fun p => lookupPath files p
  pathExists := fun p => (lookupPath files p).isSome || decide (p ∈ dirs)
  isDir := fun p => decide (p ∈ dirs)
  isFile := fun p => (lookupPath files p).isSome
  readDir := fun p =>
    if p ∈ dirs then
      some (files.filterMap (fun e =>
        if e.1.dropLast = p then e.1.getLast? else none))
    else none
  canWatch := fun _ => true

def exSession : SessionJson :=
  { schema := 1, id := "sess-1", name := "default", version := 3,
    limits := { max_tokens := 1600 }, updated_at := "2024-01-01T00:00:00Z" }

def exSnippetA : CodeContext :=
  { uri := "file:///a.rs", start_line := 1, end_line := 3,
    language_id := "rust", description := none }

def exSnippetA2 : CodeContext :=
  { uri := "file:///a.rs", start_line := 0, end_line := 2,
    language_id := "rust", description := some "same uri again" }

/-- A snippet whose URI is the percent-encoded spelling
`file:///%61.rs` of `file:///a.rs`: `url::Url::to_file_path`
percent-decodes, so both URIs resolve to the same on-disk path. -/
def exSnippetB : CodeContext :=
  { uri := "file:///%61.rs", start_line := 0, end_line := 1,
    language_id := "rust", description := none }

/-- Concrete external-library behaviour used by the witnesses: JSON
parsing recognises a few fixed file contents, and URI resolution maps
both spellings of `/a.rs` to the same path, as the `url` crate does. -/
def exEnv : Env where
  parseSession := fun s => if s = "SESSION_OK" then some exSession else none
  parseSnippets := fun s =>
    if s = "SNIPPETS_A" then some { schema := 1, snippets := [exSnippetA] }
    else if s = "SNIPPETS_AA" then
      some { schema := 1, snippets := [exSnippetA, exSnippetA2] }
    else if s = "SNIPPETS_AB" then
      some { schema := 1, snippets := [exSnippetA, exSnippetB] }
    else none
  parseActive := fun s =>
    if s = "ACTIVE_S2" then
      some { schema := 1, id := "sess-2", path := ["sessions", "s2"] }
    else none
  uriToPath := fun u =>
    if u = "file:///a.rs" then some ["a.rs"]
    else if u = "file:///%61.rs" then some ["a.rs"]
    else none

/-! ### C6 -/

/-- C6: `load_snapshot` fails with a session-read error when
`session.json` is missing (unreadable) or malformed; when the metadata
is readable and `code_snippets.json` does not exist the load succeeds
and the snapshot's snippet list is empty. -/
theorem c6_session_metadata_required_snippets_optional (env : Env) (fs : FS)
    (sessionDir : FilePath') :
    (fs.readFile (pathJoin sessionDir "session.json") = none →
      load_snapshot env fs sessionDir = .error "Failed to read session.json") ∧
    (∀ sc, fs.readFile (pathJoin sessionDir "session.json") = some sc →
      env.parseSession sc = none →
      load_snapshot env fs sessionDir = .error "Failed to parse session.json") ∧
    (∀ sc sess, fs.readFile (pathJoin sessionDir "session.json") = some sc →
      env.parseSession sc = some sess →
      fs.pathExists (pathJoin sessionDir "code_snippets.json") = false →
      load_snapshot env fs sessionDir = .ok {
        session_id := sess.id
        version := sess.version
        limits := sess.limits
        session_dir := sessionDir
        code_snippets := []
        markdown_cache := loadMarkdownCache fs (pathJoin sessionDir "context")
        file_cache := buildFileCache env fs [] }) := by
  refine ⟨?_, ?_, ?_⟩
  · intro h
    simp [load_snapshot, h]
  · intro sc h1 h2
    simp [load_snapshot, h1, h2]
  · intro sc sess h1 h2 h3
    simp [load_snapshot, h1, h2, h3]

def wDir6 : FilePath' := ["s6"]

def wFs6a : FS := mkFS [] []

def wFs6b : FS := mkFS [(pathJoin wDir6 "session.json", "garbage")] []

def wFs6c : FS := mkFS [(pathJoin wDir6 "session.json", "SESSION_OK")] []

theorem c6_witness :
    load_snapshot exEnv wFs6a wDir6 = .error "Failed to read session.json" ∧
    load_snapshot exEnv wFs6b wDir6 = .error "Failed to parse session.json" ∧
    load_snapshot exEnv wFs6c wDir6 = .ok {
      session_id := "sess-1"
      version := 3
      limits := { max_tokens := 1600 }
      session_dir := wDir6
      code_snippets := []
      markdown_cache := []
      file_cache := [] } :=
  ⟨(c6_session_metadata_required_snippets_optional exEnv wFs6a wDir6).1 rfl,
   (c6_session_metadata_required_snippets_optional exEnv wFs6b wDir6).2.1
     "garbage" rfl rfl,
   (c6_session_metadata_required_snippets_optional exEnv wFs6c wDir6).2.2
     "SESSION_OK" exSession rfl rfl rfl⟩

/-! ### C7 -/

/-- C7: after any successful `load_snapshot`, the file cache holds at
most one entry per distinct URI (its key list has no duplicates), every
key is the URI of some snippet of the loaded list, and a URI that
resolves to a readable file is read at most once by the loading loop. -/
theorem c7_file_cache_one_entry_per_distinct_uri (env : Env) (fs : FS)
    (sessionDir : FilePath') (snap : ContextSnapshot)
    (hload : load_snapshot env fs sessionDir = .ok snap) :
    (smapKeys snap.file_cache).Nodup ∧
    (∀ k ∈ smapKeys snap.file_cache, ∃ s ∈ snap.code_snippets, s.uri = k) ∧
    (∀ u p c, env.uriToPath u = some p → fs.readFile p = some c →
      (buildFileCacheAux env fs snap.code_snippets).2.count u ≤ 1) := by
  obtain ⟨-, -, hfc⟩ := load_snapshot_ok_fields env fs sessionDir snap hload
  rw [hfc]
  simp only [buildFileCache, buildFileCacheAux]
  refine ⟨?_, ?_, ?_⟩
  · exact buildFileCacheAux_keys_nodup env fs snap.code_snippets ([], [])
      (by simp [smapKeys])
  · intro k hk
    rcases buildFileCacheAux_keys_from_snippets env fs snap.code_snippets
        ([], []) k hk with h | h
    · simp [smapKeys] at h
    · exact h
  · intro u p c hu hr
    exact (buildFileCacheAux_read_once_aux env fs u p c hu hr
      snap.code_snippets ([], []) (by simp) (by intro h; simp at h)).1

def wDir7 : FilePath' := ["s7"]

def wFs7 : FS := mkFS [
  (pathJoin wDir7 "session.json", "SESSION_OK"),
  (pathJoin wDir7 "code_snippets.json", "SNIPPETS_AA"),
  (["a.rs"], "L0\nL1\nL2\nL3\nL4")] []

def wSnap7 : ContextSnapshot :=
  { session_id := "sess-1", version := 3, limits := { max_tokens := 1600 },
    session_dir := wDir7, code_snippets := [exSnippetA, exSnippetA2],
    markdown_cache := [],
    file_cache := [("file:///a.rs", "L0\nL1\nL2\nL3\nL4")] }

theorem c7_witness :
    load_snapshot exEnv wFs7 wDir7 = .ok wSnap7 ∧
    wSnap7.code_snippets = [exSnippetA, exSnippetA2] ∧
    smapKeys wSnap7.file_cache = ["file:///a.rs"] ∧
    (buildFileCacheAux exEnv wFs7 wSnap7.code_snippets).2 = ["file:///a.rs"] ∧
    (smapKeys wSnap7.file_cache).Nodup :=
  ⟨rfl, rfl, rfl, rfl,
   (c7_file_cache_one_entry_per_distinct_uri exEnv wFs7 wDir7 wSnap7 rfl).1⟩

/-! ### C5 -/

/-- The list of lines a snippet selects: the slice
`lines[start_line .. min end_line lines.length]`. -/
def selectedLines (lines : List String) (s e : Nat) : List String :=
  (lines.drop s).take (min e lines.length - s)

/-- C5: the file cache stores the whole file content (the value cached
for a snippet's URI is exactly what was read from its resolved path),
and prompt-build extraction selects exactly the lines in
`[start_line, end_line)` with `end_line` clamped to the line count;
a `start_line` at or past the end produces a non-fatal placeholder and
extraction never panics. -/
theorem c5_whole_file_cached_extraction_clamped (env : Env) (fs : FS)
    (sessionDir : FilePath') (snap : ContextSnapshot) (snippet : CodeContext)
    (c : String)
    (hload : load_snapshot env fs sessionDir = .ok snap)
    (hinv : snippet.start_line ≤ snippet.end_line)
    (hcache : smapFind? snap.file_cache snippet.uri = some c) :
    (∃ p, env.uriToPath snippet.uri = some p ∧ fs.readFile p = some c) ∧
    ((selectedLines (rustLines c) snippet.start_line snippet.end_line).length =
      min snippet.end_line (rustLines c).length - snippet.start_line) ∧
    (∀ i, i < (selectedLines (rustLines c) snippet.start_line
        snippet.end_line).length →
      (selectedLines (rustLines c) snippet.start_line snippet.end_line)[i]? =
        (rustLines c)[snippet.start_line + i]?) ∧
    (snippet.start_line < (rustLines c).length →
      extractSnippetCode snap snippet =
        .ok ("  Code:\n```\n" ++ String.intercalate "\n"
          (selectedLines (rustLines c) snippet.start_line snippet.end_line) ++
          "\n```\n\n")) ∧
    ((rustLines c).length ≤ snippet.start_line →
      extractSnippetCode snap snippet =
        .ok ("  Code: [Invalid line range]\n\n")) ∧
    extractSnippetCode snap snippet ≠ RustResult.panicked := by
  obtain ⟨-, -, hfc⟩ := load_snapshot_ok_fields env fs sessionDir snap hload
  have hwhole : ∃ p, env.uriToPath snippet.uri = some p ∧
      fs.readFile p = some c := by
    rw [hfc] at hcache
    exact buildFileCacheAux_values env fs snap.code_snippets ([], [])
      (by intro u c' h; simp [smapFind?] at h) snippet.uri c hcache
  have hlen : (selectedLines (rustLines c) snippet.start_line
      snippet.end_line).length =
      min snippet.end_line (rustLines c).length - snippet.start_line := by
    simp only [selectedLines, List.length_take, List.length_drop]
    omega
  have hget : ∀ i, i < (selectedLines (rustLines c) snippet.start_line
      snippet.end_line).length →
      (selectedLines (rustLines c) snippet.start_line snippet.end_line)[i]? =
        (rustLines c)[snippet.start_line + i]? := by
    intro i hi
    rw [hlen] at hi
    simp only [selectedLines]
    rw [List.getElem?_take, if_pos hi, List.getElem?_drop]
  have hok : snippet.start_line < (rustLines c).length →
      extractSnippetCode snap snippet =
        .ok ("  Code:\n```\n" ++ String.intercalate "\n"
          (selectedLines (rustLines c) snippet.start_line snippet.end_line) ++
          "\n```\n\n") := by
    intro hlt
    have hcond : snippet.start_line ≤ min snippet.end_line (rustLines c).length ∧
        min snippet.end_line (rustLines c).length ≤ (rustLines c).length :=
      ⟨Nat.le_min.mpr ⟨hinv, Nat.le_of_lt hlt⟩, Nat.min_le_right _ _⟩
    simp only [extractSnippetCode, hcache, if_pos hlt, rustSlice, if_pos hcond]
    rfl
  have hplaceholder : (rustLines c).length ≤ snippet.start_line →
      extractSnippetCode snap snippet =
        .ok ("  Code: [Invalid line range]\n\n") := by
    intro hge
    simp only [extractSnippetCode, hcache, if_neg (Nat.not_lt.mpr hge)]
  refine ⟨hwhole, hlen, hget, hok, hplaceholder, ?_⟩
  rcases Nat.lt_or_ge snippet.start_line (rustLines c).length with hlt | hge
  · rw [hok hlt]
    exact fun h => RustResult.noConfusion h
  · rw [hplaceholder hge]
    exact fun h => RustResult.noConfusion h

def wDir5 : FilePath' := ["s5"]

def wFs5 : FS := mkFS [
  (pathJoin wDir5 "session.json", "SESSION_OK"),
  (pathJoin wDir5 "code_snippets.json", "SNIPPETS_A"),
  (["a.rs"], "L0\nL1\nL2\nL3\nL4")] []

def wSnap5 : ContextSnapshot :=
  { session_id := "sess-1", version := 3, limits := { max_tokens := 1600 },
    session_dir := wDir5, code_snippets := [exSnippetA],
    markdown_cache := [],
    file_cache := [("file:///a.rs", "L0\nL1\nL2\nL3\nL4")] }

theorem c5_witness :
    exSnippetA.start_line ≤ exSnippetA.end_line ∧
    load_snapshot exEnv wFs5 wDir5 = .ok wSnap5 ∧
    smapFind? wSnap5.file_cache exSnippetA.uri = some "L0\nL1\nL2\nL3\nL4" ∧
    selectedLines (rustLines "L0\nL1\nL2\nL3\nL4") 1 3 = ["L1", "L2"] ∧
    extractSnippetCode wSnap5 exSnippetA =
      .ok ("  Code:\n```\nL1\nL2\n```\n\n") :=
  ⟨by decide, rfl, rfl, rfl,
   (c5_whole_file_cached_extraction_clamped exEnv wFs5 wDir5 wSnap5 exSnippetA
     "L0\nL1\nL2\nL3\nL4" rfl (by decide) rfl).2.2.2.1 (by decide)⟩

/-! ### C8 -/

/-- C8: a markdown update flushed for a single path `p` (whose file, if
it exists, is readable) changes only the `markdown_cache` entry keyed
by `p`'s filename — upserted with the re-read content when the file
exists, removed when it no longer exists — while every other markdown
entry, the file cache, the snippet list, limits, session id, version
and session directory are unchanged. -/
theorem c8_markdown_update_frame (fs : FS) (sessionDir : FilePath')
    (snap : ContextSnapshot) (p : FilePath') (f : String)
    (hf : pathFileName p = some f)
    (hcoh : fs.pathExists p = true → (fs.readFile p).isSome) :
    (∀ k, k ≠ f →
      smapFind? (update_markdown_cache fs sessionDir snap [p]).markdown_cache k =
        smapFind? snap.markdown_cache k) ∧
    (smapFind? (update_markdown_cache fs sessionDir snap [p]).markdown_cache f =
      if fs.pathExists p then fs.readFile p else none) ∧
    (update_markdown_cache fs sessionDir snap [p]).file_cache =
      snap.file_cache ∧
    (update_markdown_cache fs sessionDir snap [p]).code_snippets =
      snap.code_snippets ∧
    (update_markdown_cache fs sessionDir snap [p]).limits = snap.limits ∧
    (update_markdown_cache fs sessionDir snap [p]).session_id =
      snap.session_id ∧
    (update_markdown_cache fs sessionDir snap [p]).version = snap.version ∧
    (update_markdown_cache fs sessionDir snap [p]).session_dir =
      snap.session_dir := by
  have hcache : (update_markdown_cache fs sessionDir snap [p]).markdown_cache =
      markdownStep fs snap.markdown_cache p := rfl
  refine ⟨?_, ?_, rfl, rfl, rfl, rfl, rfl, rfl⟩
  · intro k hk
    rw [hcache]
    simp only [markdownStep, hf]
    by_cases hex : fs.pathExists p = true
    · obtain ⟨c, hc⟩ := Option.isSome_iff_exists.mp (hcoh hex)
      simp only [hex, if_true, hc]
      exact smapFind?_insert_ne snap.markdown_cache f c k hk
    · simp only [if_neg hex]
      exact smapFind?_erase_ne snap.markdown_cache f k hk
  · rw [hcache]
    simp only [markdownStep, hf]
    by_cases hex : fs.pathExists p = true
    · obtain ⟨c, hc⟩ := Option.isSome_iff_exists.mp (hcoh hex)
      simp only [hex, if_true, hc]
      exact smapFind?_insert_self snap.markdown_cache f c
    · simp only [if_neg hex]
      exact smapFind?_erase_self snap.markdown_cache f

def wMdPath8 : FilePath' := ["s8", "context", "notes.md"]

def wFs8 : FS := mkFS [(wMdPath8, "new notes")] []

def wSnap8 : ContextSnapshot :=
  { session_id := "sess-8", version := 1, limits := { max_tokens := 1600 },
    session_dir := ["s8"], code_snippets := [exSnippetA],
    markdown_cache := [("notes.md", "old notes"), ("other.md", "keep")],
    file_cache := [("file:///a.rs", "body")] }

theorem c8_witness :
    pathFileName wMdPath8 = some "notes.md" ∧
    (update_markdown_cache wFs8 ["s8"] wSnap8 [wMdPath8]).markdown_cache =
      [("notes.md", "new notes"), ("other.md", "keep")] ∧
    smapFind? (update_markdown_cache wFs8 ["s8"] wSnap8
        [wMdPath8]).markdown_cache "other.md" =
      smapFind? wSnap8.markdown_cache "other.md" ∧
    smapFind? (update_markdown_cache wFs8 ["s8"] wSnap8
        [wMdPath8]).markdown_cache "notes.md" =
      (if wFs8.pathExists wMdPath8 then wFs8.readFile wMdPath8 else none) ∧
    (update_markdown_cache wFs8 ["s8"] wSnap8 [wMdPath8]).file_cache =
      wSnap8.file_cache :=
  ⟨rfl, rfl,
   (c8_markdown_update_frame wFs8 ["s8"] wSnap8 wMdPath8 "notes.md" rfl
     (fun _ => rfl)).1 "other.md" (by decide),
   (c8_markdown_update_frame wFs8 ["s8"] wSnap8 wMdPath8 "notes.md" rfl
     (fun _ => rfl)).2.1,
   (c8_markdown_update_frame wFs8 ["s8"] wSnap8 wMdPath8 "notes.md" rfl
     (fun _ => rfl)).2.2.1⟩

/-! ### C9 -/

/-- C9: a markdown update for a path whose on-disk content equals the
content already cached under its filename yields a snapshot equal (as a
value, hence in all observable content) to the snapshot before the
update. -/
theorem c9_markdown_update_idempotent (fs : FS) (sessionDir : FilePath')
    (snap : ContextSnapshot) (p : FilePath') (f c : String)
    (hf : pathFileName p = some f)
    (hex : fs.pathExists p = true)
    (hread : fs.readFile p = some c)
    (hcached : smapFind? snap.markdown_cache f = some c) :
    update_markdown_cache fs sessionDir snap [p] = snap := by
  unfold update_markdown_cache
  have hstep : List.foldl (markdownStep fs) snap.markdown_cache [p] =
      snap.markdown_cache := by
    simp only [List.foldl_cons, List.foldl_nil]
    simp only [markdownStep, hf, hex, if_true, hread]
    exact smapInsert_of_find?_eq snap.markdown_cache f c hcached
  rw [hstep]

def wMdPath9 : FilePath' := ["s9", "context", "notes.md"]

def wFs9 : FS := mkFS [(wMdPath9, "same content")] []

def wSnap9 : ContextSnapshot :=
  { session_id := "sess-9", version := 2, limits := { max_tokens := 1600 },
    session_dir := ["s9"], code_snippets := [],
    markdown_cache := [("notes.md", "same content")],
    file_cache := [] }

theorem c9_witness :
    wFs9.readFile wMdPath9 = some "same content" ∧
    smapFind? wSnap9.markdown_cache "notes.md" = some "same content" ∧
    update_markdown_cache wFs9 ["s9"] wSnap9 [wMdPath9] = wSnap9 :=
  ⟨rfl, rfl,
   c9_markdown_update_idempotent wFs9 ["s9"] wSnap9 wMdPath9 "notes.md"
     "same content" rfl rfl rfl rfl⟩

/-! ### C1 -/

/-- C1 (amended): a flushed source update for path `p` (whose file, if
it exists, is readable) acts on the *first* snippet in list order whose
URI resolves to `p`: that snippet's `file_cache` key is re-read when
the file exists and evicted when it no longer exists, while every other
`file_cache` key and every other snapshot field stay untouched; when no
snippet's URI resolves to `p` the snapshot is unchanged.  (Further
URIs resolving to the same path are left stale, see the
counterexample.) -/
theorem c1_source_update_first_matching_uri (env : Env) (fs : FS)
    (snap : ContextSnapshot) (p : FilePath')
    (hcoh : fs.pathExists p = true → (fs.readFile p).isSome) :
    (firstSnippetFor env snap.code_snippets p = none →
      update_code_cache env fs snap [p] = snap) ∧
    (∀ s, firstSnippetFor env snap.code_snippets p = some s →
      (∀ k, k ≠ s.uri →
        smapFind? (update_code_cache env fs snap [p]).file_cache k =
          smapFind? snap.file_cache k) ∧
      smapFind? (update_code_cache env fs snap [p]).file_cache s.uri =
        (if fs.pathExists p then fs.readFile p else none) ∧
      (update_code_cache env fs snap [p]).markdown_cache =
        snap.markdown_cache ∧
      (update_code_cache env fs snap [p]).code_snippets =
        snap.code_snippets ∧
      (update_code_cache env fs snap [p]).limits = snap.limits ∧
      (update_code_cache env fs snap [p]).session_id = snap.session_id ∧
      (update_code_cache env fs snap [p]).version = snap.version ∧
      (update_code_cache env fs snap [p]).session_dir = snap.session_dir) := by
  have hcache : (update_code_cache env fs snap [p]).file_cache =
      codeStep env fs snap.code_snippets snap.file_cache p := rfl
  constructor
  · intro hnone
    unfold update_code_cache
    simp only [List.foldl_cons, List.foldl_nil]
    unfold codeStep
    rw [hnone]
  · intro s hs
    refine ⟨?_, ?_, rfl, rfl, rfl, rfl, rfl, rfl⟩
    · intro k hk
      rw [hcache]
      simp only [codeStep, hs]
      by_cases hex : fs.pathExists p = true
      · obtain ⟨c, hc⟩ := Option.isSome_iff_exists.mp (hcoh hex)
        simp only [hex, if_true, hc]
        exact smapFind?_insert_ne snap.file_cache s.uri c k hk
      · simp only [if_neg hex]
        exact smapFind?_erase_ne snap.file_cache s.uri k hk
    · rw [hcache]
      simp only [codeStep, hs]
      by_cases hex : fs.pathExists p = true
      · obtain ⟨c, hc⟩ := Option.isSome_iff_exists.mp (hcoh hex)
        simp only [hex, if_true, hc]
        exact smapFind?_insert_self snap.file_cache s.uri c
      · simp only [if_neg hex]
        exact smapFind?_erase_self snap.file_cache s.uri

/-- A snapshot holding two snippets whose distinct URI strings resolve
to the same on-disk path, both cached. -/
def cexSnap1 : ContextSnapshot :=
  { session_id := "sess-1", version := 3, limits := { max_tokens := 1600 },
    session_dir := ["s1"], code_snippets := [exSnippetA, exSnippetB],
    markdown_cache := [],
    file_cache := [("file:///a.rs", "old content"),
                   ("file:///%61.rs", "old content")] }

/-- The filesystem after the watched file `/a.rs` has been deleted. -/
def cexFs1 : FS := mkFS [] []

/-- C1 counterexample: both `file:///a.rs` and `file:///%61.rs`
resolve to the deleted path `a.rs`, yet the flushed source update
evicts only the first matching snippet's key — the inner snippet loop
`break`s after the first match — so the second URI's `file_cache` entry
survives, contradicting "updates all matching file_cache keys ...
evicted if the file no longer exists". -/
theorem c1_counterexample :
    exEnv.uriToPath "file:///a.rs" = some ["a.rs"] ∧
    exEnv.uriToPath "file:///%61.rs" = some ["a.rs"] ∧
    cexFs1.pathExists ["a.rs"] = false ∧
    cexSnap1.code_snippets = [exSnippetA, exSnippetB] ∧
    smapFind? (update_code_cache exEnv cexFs1 cexSnap1 [["a.rs"]]).file_cache
      "file:///a.rs" = none ∧
    smapFind? (update_code_cache exEnv cexFs1 cexSnap1 [["a.rs"]]).file_cache
      "file:///%61.rs" = some "old content" :=
  ⟨rfl, rfl, rfl, rfl, rfl, rfl⟩

def wFs1 : FS := mkFS [(["a.rs"], "new content")] []

theorem c1_witness :
    firstSnippetFor exEnv cexSnap1.code_snippets ["a.rs"] = some exSnippetA ∧
    smapFind? (update_code_cache exEnv wFs1 cexSnap1 [["a.rs"]]).file_cache
        "file:///a.rs" =
      (if wFs1.pathExists ["a.rs"] then wFs1.readFile ["a.rs"] else none) ∧
    (update_code_cache exEnv wFs1 cexSnap1 [["a.rs"]]).markdown_cache =
      cexSnap1.markdown_cache :=
  ⟨rfl,
   ((c1_source_update_first_matching_uri exEnv wFs1 cexSnap1 ["a.rs"]
     (fun _ => rfl)).2 exSnippetA rfl).2.1,
   ((c1_source_update_first_matching_uri exEnv wFs1 cexSnap1 ["a.rs"]
     (fun _ => rfl)).2 exSnippetA rfl).2.2.1⟩

/-! ### C3 -/

/-- C3: a failing session switch or snippet-list reload never touches
the published snapshot: every error return of `switch_session` leaves
the stored snapshot (and the active session directory) exactly as
before, and every error return of `reload_code_snippets` leaves the
whole watch state unchanged — so the store is never emptied nor left
partially written, and the flush loop (a total function) carries on
with the prior snapshot.  The two remaining updaters,
`update_markdown_cache` and `update_code_cache`, are infallible by
construction. -/
theorem c3_failed_update_preserves_published_snapshot (env : Env) (fs : FS)
    (snekRoot : FilePath') (st : WatchState) :
    (∀ e, (switch_session env fs snekRoot st).2 = some e →
      (switch_session env fs snekRoot st).1.snapshot = st.snapshot ∧
      (switch_session env fs snekRoot st).1.sessionDir = st.sessionDir) ∧
    (∀ e, (reload_code_snippets env fs st).2 = some e →
      (reload_code_snippets env fs st).1 = st) := by
  constructor
  · intro e
    unfold switch_session
    split
    · intro _
      exact ⟨rfl, rfl⟩
    · split
      · intro h
        exact absurd h (by simp)
      · split
        · intro _
          exact ⟨rfl, rfl⟩
        · simp only []
          split
          · intro _
            exact ⟨rfl, rfl⟩
          · split
            · intro _
              exact ⟨rfl, rfl⟩
            · intro h
              exact absurd h (by simp)
  · intro e
    unfold reload_code_snippets
    split
    · intro _
      rfl
    · intro h
      exact absurd h (by simp)

def wSnapOld : ContextSnapshot :=
  { session_id := "old", version := 0, limits := { max_tokens := 1600 },
    session_dir := ["s1"], code_snippets := [], markdown_cache := [],
    file_cache := [] }

def wSt3 : WatchState :=
  { sessionDir := ["s3"], snapshot := wSnapOld, watchedFiles := [["a.rs"]] }

def wFs3 : FS := mkFS [] []

theorem c3_witness :
    (switch_session exEnv wFs3 ["root"] wSt3).2 =
      some "Failed to read active.json" ∧
    (switch_session exEnv wFs3 ["root"] wSt3).1.snapshot = wSt3.snapshot ∧
    (reload_code_snippets exEnv wFs3 wSt3).2 =
      some "Failed to read session.json" ∧
    (reload_code_snippets exEnv wFs3 wSt3).1 = wSt3 :=
  ⟨rfl,
   ((c3_failed_update_preserves_published_snapshot exEnv wFs3 ["root"]
     wSt3).1 "Failed to read active.json" rfl).1,
   rfl,
   (c3_failed_update_preserves_published_snapshot exEnv wFs3 ["root"]
     wSt3).2 "Failed to read session.json" rfl⟩

/-! ### C2 -/

/-- C2 (amended): in any flush cycle with a session switch pending,
no other pending update is applied in that cycle; when the switch
succeeds every other pending bucket is discarded, but when it fails the
pending snippet-reload flag and markdown/source path sets are retained
for the next cycle rather than discarded. -/
theorem c2_pending_switch_short_circuits_flush (env : Env) (fs : FS)
    (snekRoot : FilePath') (st : WatchState) (p : Pending)
    (hsw : p.sessionSwitch = true) :
    (∀ st', switch_session env fs snekRoot st = (st', none) →
      flush env fs snekRoot st p = (st', emptyPending)) ∧
    (∀ st' e, switch_session env fs snekRoot st = (st', some e) →
      flush env fs snekRoot st p =
        (st', { sessionSwitch := false, snippetsReload := p.snippetsReload,
                markdownUpdates := p.markdownUpdates,
                codeUpdates := p.codeUpdates })) := by
  constructor
  · intro st' h
    unfold flush
    rw [if_pos hsw, h]
  · intro st' e h
    unfold flush
    rw [if_pos hsw, h]

def cexSt2 : WatchState :=
  { sessionDir := ["s1"], snapshot := wSnapOld, watchedFiles := [] }

def cexPend2 : Pending :=
  { sessionSwitch := true, snippetsReload := false,
    markdownUpdates := [["s1", "context", "notes.md"]], codeUpdates := [] }

/-- C2 counterexample: with `active.json` unreadable the pending
session switch fails, and the flush cycle ends with the pending
markdown-path set still holding its path — the buckets accumulated for
the old session are not discarded, contradicting the claim that in any
flush cycle with a session switch pending they are all discarded. -/
theorem c2_counterexample :
    cexPend2.sessionSwitch = true ∧
    (switch_session exEnv wFs3 ["root"] cexSt2).2 =
      some "Failed to read active.json" ∧
    (flush exEnv wFs3 ["root"] cexSt2 cexPend2).2.markdownUpdates =
      [["s1", "context", "notes.md"]] ∧
    (flush exEnv wFs3 ["root"] cexSt2 cexPend2).2.markdownUpdates ≠ [] :=
  ⟨rfl, rfl, rfl, by decide⟩

theorem c2_witness :
    (switch_session exEnv wFs3 ["root"] cexSt2).2 =
      some "Failed to read active.json" ∧
    flush exEnv wFs3 ["root"] cexSt2 cexPend2 =
      (cexSt2, { sessionSwitch := false, snippetsReload := false,
                 markdownUpdates := [["s1", "context", "notes.md"]],
                 codeUpdates := [] }) :=
  ⟨rfl,
   (c2_pending_switch_short_circuits_flush exEnv wFs3 ["root"] cexSt2
     cexPend2 rfl).2 cexSt2 "Failed to read active.json" rfl⟩

/-! ### C4 -/

/-- C4: in a flush cycle with no pending session switch and a pending
snippet-list reload, the reload is performed and the pending source
updates are discarded — the flush result does not depend on them and
they are not applied — while the pending markdown updates are still
applied in the same cycle, on top of the reload result. -/
theorem c4_reload_supersedes_source_not_markdown (env : Env) (fs : FS)
    (snekRoot : FilePath') (st : WatchState) (p : Pending)
    (hsw : p.sessionSwitch = false) (hrl : p.snippetsReload = true) :
    flush env fs snekRoot st p =
      flush env fs snekRoot st { p with codeUpdates := [] } ∧
    flush env fs snekRoot st p =
      ({ (reload_code_snippets env fs st).1 with
          snapshot :=
            if p.markdownUpdates = [] then
              (reload_code_snippets env fs st).1.snapshot
            else
              update_markdown_cache fs
                (reload_code_snippets env fs st).1.sessionDir
                (reload_code_snippets env fs st).1.snapshot
                p.markdownUpdates },
       emptyPending) := by
  have key : ∀ md code : List FilePath',
      flush env fs snekRoot st
        { sessionSwitch := false, snippetsReload := true,
          markdownUpdates := md, codeUpdates := code } =
      ({ (reload_code_snippets env fs st).1 with
          snapshot :=
            if md = [] then (reload_code_snippets env fs st).1.snapshot
            else
              update_markdown_cache fs
                (reload_code_snippets env fs st).1.sessionDir
                (reload_code_snippets env fs st).1.snapshot md },
        emptyPending) := by
    intro md code
    by_cases hmd : md = []
    · subst hmd
      simp [flush, emptyPending]
    · simp [flush, hmd, emptyPending]
  rcases p with ⟨psw, prl, pmd, pcode⟩
  simp only at hsw hrl
  subst hsw
  subst hrl
  refine ⟨?_, key pmd pcode⟩
  exact (key pmd pcode).trans (key pmd []).symm

def wDir4 : FilePath' := ["s4"]

def wFs4 : FS := mkFS [
  (pathJoin wDir4 "session.json", "SESSION_OK"),
  (pathJoin wDir4 "code_snippets.json", "SNIPPETS_A"),
  (["a.rs"], "L0\nL1\nL2\nL3\nL4"),
  (["s4", "context", "notes.md"], "fresh notes")] []

def wSt4 : WatchState :=
  { sessionDir := wDir4, snapshot := wSnapOld, watchedFiles := [] }

def wPend4 : Pending :=
  { sessionSwitch := false, snippetsReload := true,
    markdownUpdates := [["s4", "context", "notes.md"]],
    codeUpdates := [["a.rs"]] }

theorem c4_witness :
    flush exEnv wFs4 ["root"] wSt4 wPend4 =
      flush exEnv wFs4 ["root"] wSt4 { wPend4 with codeUpdates := [] } ∧
    (flush exEnv wFs4 ["root"] wSt4 wPend4).1.snapshot.markdown_cache =
      [("notes.md", "fresh notes")] ∧
    (flush exEnv wFs4 ["root"] wSt4 wPend4).1.snapshot.code_snippets =
      [exSnippetA] ∧
    (flush exEnv wFs4 ["root"] wSt4 wPend4).2 = emptyPending :=
  ⟨(c4_reload_supersedes_source_not_markdown exEnv wFs4 ["root"] wSt4 wPend4
     rfl rfl).1,
   rfl, rfl, rfl⟩

/-! ### C10 -/

/-- A successful byte split reassembles to the original sequence. -/
theorem byteSplitAux_append (cs : List Char) (n : Nat)
    (q : List Char × List Char) (h : byteSplitAux cs n = some q) :
    q.1 ++ q.2 = cs := by
  induction cs generalizing n q with
  | nil =>
    cases n with
    | zero =>
      simp only [byteSplitAux, Option.some.injEq] at h
      rw [← h]
      rfl
    | succ n => simp [byteSplitAux] at h
  | cons c cs ih =>
    cases n with
    | zero =>
      simp only [byteSplitAux, Option.some.injEq] at h
      rw [← h]
      rfl
    | succ n =>
      simp only [byteSplitAux] at h
      split at h
      · cases hr : byteSplitAux cs (n + 1 - c.utf8Size) with
        | none => rw [hr] at h; exact Option.noConfusion h
        | some q' =>
          rw [hr] at h
          simp only [Option.map_some', Option.some.injEq] at h
          rw [← h]
          simp only [List.cons_append, List.cons.injEq, true_and]
          exact ih (n + 1 - c.utf8Size) q' hr
      · exact Option.noConfusion h

/-- On a single-byte-only (ASCII) sequence every in-range byte offset
is a character boundary: the split succeeds and is take/drop. -/
theorem byteSplitAux_ascii (cs : List Char) (n : Nat)
    (hascii : ∀ c ∈ cs, c.utf8Size = 1) (hn : n ≤ cs.length) :
    byteSplitAux cs n = some (cs.take n, cs.drop n) := by
  induction cs generalizing n with
  | nil =>
    cases n with
    | zero => simp [byteSplitAux]
    | succ n => simp at hn
  | cons c cs ih =>
    cases n with
    | zero => simp [byteSplitAux]
    | succ n =>
      have hc : c.utf8Size = 1 := hascii c (List.mem_cons_self c cs)
      have hstep : byteSplitAux (c :: cs) (n + 1) =
          (byteSplitAux cs n).map (fun q => (c :: q.1, q.2)) := by
        simp only [byteSplitAux, hc]
        rw [if_pos (by omega : (1 : Nat) ≤ n + 1)]
        simp
      rw [hstep, ih n (fun x hx => hascii x (List.mem_cons_of_mem c hx))
        (Nat.le_of_succ_le_succ (by simpa using hn))]
      simp [List.take_succ_cons, List.drop_succ_cons]

/-- On an ASCII sequence the UTF-8 byte length is the character
count. -/
theorem utf8Len_ascii (cs : List Char) (h : ∀ c ∈ cs, c.utf8Size = 1) :
    utf8Len cs = cs.length := by
  induction cs with
  | nil => rfl
  | cons c cs ih =>
    simp only [utf8Len, List.map_cons, List.sum_cons,
      h c (List.mem_cons_self c cs), List.length_cons]
    rw [show (cs.map Char.utf8Size).sum = utf8Len cs from rfl,
      ih (fun x hx => h x (List.mem_cons_of_mem c hx))]
    omega

/-- C10 (amended): `get_context` returns `none` when no document is
open or the URI differs from the active document's; whenever it returns
a context, the prefix and suffix concatenate to the full stored text;
and it never panics provided every character of the stored text is a
single UTF-8 byte (in particular for ASCII documents) — for multi-byte
text the clamped byte offset can fall inside a character and the byte
slicing panics, see the counterexample. -/
theorem c10_get_context_split_and_clamp (activeDoc : Option DocumentContent)
    (uri : String) (line character : Nat) :
    (activeDoc = none → get_context activeDoc uri line character = .ok none) ∧
    (∀ content, activeDoc = some content → content.uri ≠ uri →
      get_context activeDoc uri line character = .ok none) ∧
    (∀ content, activeDoc = some content → content.uri = uri →
      (∀ c ∈ content.text.data, c.utf8Size = 1) →
      get_context activeDoc uri line character =
        .ok (some (String.mk (content.text.data.take
            (min (computeOffset (rustLines content.text) line character)
              (utf8Len content.text.data))),
          String.mk (content.text.data.drop
            (min (computeOffset (rustLines content.text) line character)
              (utf8Len content.text.data))),
          content.language_id)) ∧
      String.mk (content.text.data.take
          (min (computeOffset (rustLines content.text) line character)
            (utf8Len content.text.data))) ++
        String.mk (content.text.data.drop
          (min (computeOffset (rustLines content.text) line character)
            (utf8Len content.text.data))) = content.text) ∧
    (∀ content pre suf lang, activeDoc = some content →
      get_context activeDoc uri line character = .ok (some (pre, suf, lang)) →
      pre ++ suf = content.text) := by
  refine ⟨?_, ?_, ?_, ?_⟩
  · intro h
    subst h
    rfl
  · intro content h hne
    subst h
    simp [get_context, hne]
  · intro content h heq hascii
    subst h
    have hoff : min (computeOffset (rustLines content.text) line character)
        (utf8Len content.text.data) ≤ content.text.data.length := by
      rw [utf8Len_ascii content.text.data hascii] at *
      exact Nat.min_le_right _ _
    have hsplit := byteSplitAux_ascii content.text.data
      (min (computeOffset (rustLines content.text) line character)
        (utf8Len content.text.data)) hascii hoff
    constructor
    · simp only [get_context, hsplit]
      rw [if_neg (show ¬(content.uri ≠ uri) from fun hne => hne heq)]
    · rw [show String.mk (content.text.data.take _) ++
          String.mk (content.text.data.drop _) =
          String.mk (content.text.data.take
            (min (computeOffset (rustLines content.text) line character)
              (utf8Len content.text.data)) ++
            content.text.data.drop
            (min (computeOffset (rustLines content.text) line character)
              (utf8Len content.text.data))) from rfl]
      rw [List.take_append_drop]
  · intro content pre suf lang h hret
    subst h
    simp only [get_context] at hret
    split at hret
    · exact absurd hret (by simp)
    · split at hret
      · exact RustResult.noConfusion hret
      · rename_i q hq
        simp only [RustResult.ok.injEq, Option.some.injEq, Prod.mk.injEq] at hret
        obtain ⟨hpre, hsuf, -⟩ := hret
        subst hpre
        subst hsuf
        have happ := byteSplitAux_append content.text.data _ q hq
        calc String.mk q.1 ++ String.mk q.2
            = String.mk (q.1 ++ q.2) := rfl
          _ = String.mk content.text.data := by rw [happ]
          _ = content.text := rfl

/-- The active document used by the C10 counterexample: its text is a
single two-byte character. -/
def cexDoc10 : DocumentContent :=
  { uri := "file:///t.rs", language_id := "rust", text := "é" }

/-- C10 counterexample: with the two-byte character `é` as document
text, position `(0, 1)` yields byte offset 1, which is inside the
character; the byte slicing `&text[..1]` panics, so `get_context` does
not satisfy "never panics". -/
theorem c10_counterexample :
    get_context (some cexDoc10) "file:///t.rs" 0 1 = .panicked := by decide

def wDoc10 : DocumentContent :=
  { uri := "file:///d.txt", language_id := "plaintext", text := "ab\ncd" }

theorem c10_witness :
    get_context (some wDoc10) "file:///d.txt" 1 1 =
      .ok (some ("ab\nc", "d", "plaintext")) ∧
    "ab\nc" ++ "d" = wDoc10.text ∧
    get_context none "file:///d.txt" 1 1 = .ok none ∧
    get_context (some wDoc10) "file:///other.txt" 1 1 = .ok none :=
  ⟨((c10_get_context_split_and_clamp (some wDoc10) "file:///d.txt" 1 1).2.2.1
     wDoc10 rfl rfl (by decide)).1,
   ((c10_get_context_split_and_clamp (some wDoc10) "file:///d.txt" 1 1).2.2.1
     wDoc10 rfl rfl (by decide)).2,
   (c10_get_context_split_and_clamp none "file:///d.txt" 1 1).1 rfl,
   (c10_get_context_split_and_clamp (some wDoc10) "file:///other.txt" 1 1).2.1
     wDoc10 rfl (by decide)⟩

end Snek
